import Mathlib

/-!
Verification of the CppCustomContainers library: a fixed-range bit-indexed
`Set`, a fixed-capacity `CircularBuffer`, and a small color library
(`ColorRgb`, `ColorHsv`, `ColorTemp`).  Each C++ class is embedded as a
Lean structure and each member function as an executable Lean function
over mathematical integers; machine-integer conversions are modelled by
explicit `% 2^w` reductions where they can matter.
-/

namespace CppContainers

/-! ### `Set<T, minEL, maxEL>` (src/include/set.h)

The element type `T` is embedded as `Nat` via the underlying-type view the
C++ code itself uses: element `v` occupies bit `v - lo` of a
`std::bitset<hi - lo + 1>`, embedded as a natural number `data` in which
only bits `0 .. hi-lo` are ever set. -/

structure CSet (lo hi : Nat) where
  data : Nat
deriving DecidableEq

/-- Default-constructed set: all bits clear. -/
def CSet.empty (lo hi : Nat) : CSet lo hi := ⟨0⟩

/-- `Set::operator[]` / `Set::Contains`: range check, then test bit `v - lo`. -/
def CSet.Contains {lo hi : Nat} (s : CSet lo hi) (v : Nat) : Bool :=
  if v < lo || hi < v then false else s.data.testBit (v - lo)

/-- `Set::operator<<` / `Set::Insert`: range check, then set bit `v - lo`. -/
def CSet.Insert {lo hi : Nat} (s : CSet lo hi) (v : Nat) : CSet lo hi :=
  if v < lo || hi < v then s else ⟨s.data ||| (1 <<< (v - lo))⟩

/-- `Set::operator>>` / `Set::Erase`: range check, then reset bit `v - lo`
(`bitset::reset` clears one bit of the `hi - lo + 1`-bit word). -/
def CSet.Erase {lo hi : Nat} (s : CSet lo hi) (v : Nat) : CSet lo hi :=
  if v < lo || hi < v then s
  else ⟨s.data &&& (((1 <<< (hi - lo + 1)) - 1) ^^^ (1 <<< (v - lo)))⟩

/-- `Set::operator*=`: `data_ &= value.data_` (bitwise AND of the two words). -/
def CSet.intersect {lo hi : Nat} (s other : CSet lo hi) : CSet lo hi :=
  ⟨s.data &&& other.data⟩

/-- `Set::operator==`: `data_ == other.data_`. -/
def CSet.beq {lo hi : Nat} (s other : CSet lo hi) : Bool :=
  s.data == other.data

/-! ### `CircularBuffer<T, SIZE>` (src/include/circular_buffer.h)

`std::array<T, SIZE>` is embedded as a `List T` of length `N`; the
`size_t` members `tail_`, `head_` and the `bool` member `full_` are
carried verbatim.  The class invariant (`tail < N`, `head < N`,
`buffer.length = N`) appears as hypotheses of the theorems that need it. -/

structure CircularBuffer (T : Type) (N : Nat) where
  buffer : List T
  tail : Nat
  head : Nat
  full : Bool
deriving DecidableEq

variable {T : Type} {N : Nat}

/-- A freshly constructed buffer: `tail_{0}, head_{0}, full_{false}`
(the `std::array` contents are default-initialised). -/
def CircularBuffer.mkEmpty (T : Type) [Inhabited T] (N : Nat) :
    CircularBuffer T N :=
  ⟨List.replicate N default, 0, 0, false⟩

/-- `CircularBuffer::Full`. -/
def CircularBuffer.Full (cb : CircularBuffer T N) : Bool := cb.full

/-- `CircularBuffer::Empty`: `!full_ && tail_ == head_`. -/
def CircularBuffer.Empty (cb : CircularBuffer T N) : Bool :=
  !cb.full && (cb.tail == cb.head)

/-- `CircularBuffer::Size`: `SIZE` when full, else `tail - head`
wrapped modulo `SIZE`. -/
def CircularBuffer.Size (cb : CircularBuffer T N) : Nat :=
  if cb.full then N
  else if cb.tail ≥ cb.head then cb.tail - cb.head
  else N + cb.tail - cb.head

/-- `CircularBuffer::advance_pointer_`: when full, step `head_` (with
wraparound at `SIZE`); always step `tail_`; recompute `full_`. -/
def CircularBuffer.advancePointer (cb : CircularBuffer T N) :
    CircularBuffer T N :=
  let head := if cb.full then (if cb.head + 1 = N then 0 else cb.head + 1)
              else cb.head
  let tail := if cb.tail + 1 = N then 0 else cb.tail + 1
  ⟨cb.buffer, tail, head, tail == head⟩

/-- `CircularBuffer::retreat_pointer_`: clear `full_`, step `head_`. -/
def CircularBuffer.retreatPointer (cb : CircularBuffer T N) :
    CircularBuffer T N :=
  ⟨cb.buffer, cb.tail, if cb.head + 1 = N then 0 else cb.head + 1, false⟩

/-- `CircularBuffer::Push`: `-1` when full; else write at `tail_`,
advance, return `0`.  The status code and the updated buffer are paired. -/
def CircularBuffer.Push (cb : CircularBuffer T N) (data : T) :
    Int × CircularBuffer T N :=
  if cb.full then (-1, cb)
  else (0, CircularBuffer.advancePointer
    ⟨cb.buffer.set cb.tail data, cb.tail, cb.head, cb.full⟩)

/-- `CircularBuffer::PushForce`: write at `tail_` and advance,
without the full check. -/
def CircularBuffer.PushForce (cb : CircularBuffer T N) (data : T) :
    CircularBuffer T N :=
  CircularBuffer.advancePointer
    ⟨cb.buffer.set cb.tail data, cb.tail, cb.head, cb.full⟩

/-- `CircularBuffer::Pop(T*)`: `-1` when empty; else return the element at
`head_` (through the out-parameter, here the `Option T` component) and
retreat. -/
def CircularBuffer.Pop [Inhabited T] (cb : CircularBuffer T N) :
    Int × Option T × CircularBuffer T N :=
  if cb.Empty then (-1, none, cb)
  else (0, some (cb.buffer.getD cb.head default), cb.retreatPointer)

/-- `CircularBuffer::DirectPop`: read the element at `head_` and retreat,
with no emptiness check. -/
def CircularBuffer.DirectPop [Inhabited T] (cb : CircularBuffer T N) :
    T × CircularBuffer T N :=
  (cb.buffer.getD cb.head default, cb.retreatPointer)

/-- Push a whole list, left to right, collecting each `Push` status. -/
def CircularBuffer.pushAll (cb : CircularBuffer T N) :
    List T → List Int × CircularBuffer T N
  | [] => ([], cb)
  | v :: vs =>
    let s := cb.Push v
    let r := s.2.pushAll vs
    (s.1 :: r.1, r.2)

/-- Pop `k` times, collecting each `Pop` status and returned value. -/
def CircularBuffer.popAll [Inhabited T] (cb : CircularBuffer T N) :
    Nat → List (Int × Option T) × CircularBuffer T N
  | 0 => ([], cb)
  | k + 1 =>
    let s := cb.Pop
    let r := s.2.2.popAll k
    ((s.1, s.2.1) :: r.1, r.2)

/-- The buffer state reached from a fresh buffer after successfully
pushing the elements of `l` (`l.length ≤ N`): the slots hold `l` followed
by untouched defaults, `head = 0`, `tail` has wrapped iff `l.length = N`
(auxiliary state description for the FIFO proofs). -/
def CircularBuffer.filled (T : Type) [Inhabited T] (N : Nat) (l : List T) :
    CircularBuffer T N :=
  ⟨l ++ List.replicate (N - l.length) default, l.length % N, 0,
    decide (0 < l.length ∧ l.length % N = 0)⟩

/-- The buffer state during the pop phase after pushing `vs` and popping
`j` of them (auxiliary state description for the FIFO proofs). -/
def CircularBuffer.popped (T : Type) [Inhabited T] (N : Nat)
    (vs : List T) (j : Nat) : CircularBuffer T N :=
  ⟨vs ++ List.replicate (N - vs.length) default, vs.length % N, j % N,
    decide (vs.length = N ∧ 0 < vs.length ∧ j = 0)⟩

/-- `CircularBuffer::Iterator`: a position plus the begin/end
disambiguator flag `is_head_` (the buffer reference is supplied at use
sites). -/
structure CBIterator where
  position : Nat
  is_head : Bool
deriving DecidableEq

/-- `Iterator::operator==`: position and flag must both match. -/
def CBIterator.beq (a b : CBIterator) : Bool :=
  a.position == b.position && a.is_head == b.is_head

/-- `Iterator::operator++`: step the position with wraparound at `SIZE`
and clear the flag. -/
def CBIterator.next (N : Nat) (it : CBIterator) : CBIterator :=
  ⟨if it.position + 1 = N then 0 else it.position + 1, false⟩

/-- `CircularBuffer::begin`: position `head_`, flag `true`. -/
def CircularBuffer.beginIter (cb : CircularBuffer T N) : CBIterator :=
  ⟨cb.head, true⟩

/-- `CircularBuffer::end`: position `tail_`, flag `Empty()`. -/
def CircularBuffer.endIter (cb : CircularBuffer T N) : CBIterator :=
  ⟨cb.tail, cb.Empty⟩

/-- One step of a range-for loop over the buffer: stop when the iterator
equals `end()`, else yield `*it` and advance.  The `fuel` argument only
bounds the recursion; `N + 1` steps always suffice. -/
def CircularBuffer.iterGo [Inhabited T] (cb : CircularBuffer T N) :
    CBIterator → Nat → List T
  | _, 0 => []
  | it, fuel + 1 =>
    if it.beq cb.endIter then []
    else cb.buffer.getD it.position default :: cb.iterGo (it.next N) fuel

/-- The element sequence a range-for loop `for (auto v : cb)` visits. -/
def CircularBuffer.iterList [Inhabited T] (cb : CircularBuffer T N) :
    List T :=
  cb.iterGo cb.beginIter (N + 1)

/-! ### Color library (src/include/color.h, src/src/color.cpp)

`uint8_t` / `uint16_t` values are embedded as `Nat`, with the narrowing
conversions a constructor call performs made explicit as `% 256` /
`% 65536`; the `int32_t` intermediate of `ColorHsv::ToRgb` is embedded as
`Int` (`>> 16` on a non-negative/negative `int32_t` is arithmetic shift,
i.e. flooring division by `2^16`; `/` and `%` on it truncate toward
zero, i.e. `Int.tdiv` / `Int.tmod`). -/

/-- `std::clamp(x, lo, hi)` on unsigned values (`lo ≤ hi`). -/
def cppClamp (x lo hi : Nat) : Nat := max lo (min x hi)

/-- `ColorRgb`: three 8-bit channels. -/
structure ColorRgb where
  red : Nat
  green : Nat
  blue : Nat
deriving DecidableEq

/-- `ColorRgb(uint8_t r, uint8_t g, uint8_t b)`: the `% 256` is the
narrowing `uint8_t` conversion performed at the call boundary (the
constructor itself stores the channels verbatim). -/
def ColorRgb.mk8 (r g b : Nat) : ColorRgb := ⟨r % 256, g % 256, b % 256⟩

/-- `ColorRgb()` default constructor: channels zero-initialised. -/
def ColorRgb.default0 : ColorRgb := ⟨0, 0, 0⟩

/-- `ColorHsv`: `hue_ ∈ [0,360]`, `saturation_, value_ ∈ [0,100]`
(every constructor and setter clamps, so the fields always satisfy the
ranges documented in color.h). -/
structure ColorHsv where
  hue : Nat
  saturation : Nat
  value : Nat
deriving DecidableEq

/-- `ColorHsv::SetHue`: `std::clamp(hue, 0, 360)`. -/
def ColorHsv.SetHue (c : ColorHsv) (h : Nat) : ColorHsv :=
  { c with hue := cppClamp h 0 360 }

/-- `ColorHsv::SetSaturation`: `std::clamp(saturation, 0, 100)`. -/
def ColorHsv.SetSaturation (c : ColorHsv) (s : Nat) : ColorHsv :=
  { c with saturation := cppClamp s 0 100 }

/-- `ColorHsv::SetValue`: `std::clamp(value, 0, 100)`. -/
def ColorHsv.SetValue (c : ColorHsv) (v : Nat) : ColorHsv :=
  { c with value := cppClamp v 0 100 }

/-- `ColorHsv(uint16_t hue, uint8_t saturation, uint8_t value)`: the
constructor runs the three clamping setters on a default object. -/
def ColorHsv.mkHsv (h s v : Nat) : ColorHsv :=
  (((⟨0, 0, 0⟩ : ColorHsv).SetHue h).SetSaturation s).SetValue v

/-- `ColorHsv::ToRgb` (color.cpp): fixed-point HSV→RGB sector selection.
With the field invariants `hue ≤ 360`, `saturation ≤ 100`, `value ≤ 100`
all intermediate `uint32_t`/`int32_t` quantities stay far below their
wrap points, so the machine arithmetic agrees with `Nat`/`Int`
arithmetic; the `uint16_t` cast in `m` and the `uint8_t` casts at the
final constructor call are kept explicit. -/
def ColorHsv.ToRgb (c : ColorHsv) : ColorRgb :=
  let chroma : Nat := c.value * c.saturation * 255 / 10000
  let m : Nat := (((c.value * 255 / 100 : Nat) : Int) - chroma).emod 65536
    |>.toNat
  let tmp1 : Int := (c.hue : Int) * 65536
  let tmp2 : Int := tmp1.tdiv 60
  let tmp3 : Int := tmp2.tmod 131072
  let tmp4 : Int := tmp3 - 65535
  let tmp5 : Int := (tmp4.natAbs : Int)
  let tmp6 : Int := 65535 - tmp5
  let tmp7 : Int := tmp6 * chroma
  let x : Nat := ((tmp7.fdiv 65536).emod 256).toNat
  let h : Nat := c.hue / 60
  if h = 0 ∨ 6 ≤ h then ColorRgb.mk8 (chroma + m) (x + m) m
  else if h = 1 then ColorRgb.mk8 (x + m) (chroma + m) m
  else if h = 2 then ColorRgb.mk8 m (chroma + m) (x + m)
  else if h = 3 then ColorRgb.mk8 m (x + m) (chroma + m)
  else if h = 4 then ColorRgb.mk8 (x + m) m (chroma + m)
  else if h = 5 then ColorRgb.mk8 (chroma + m) m (x + m)
  else ColorRgb.default0

/-! `ColorRgb::GetLuminance` computes `0.2126f*red + 0.7152f*green +
0.0722f*blue` in single-precision `float`, which rounds to binary32
(24-bit significand, round-to-nearest, ties to even) after every
multiplication and addition.  Every value in that computation is a
non-negative dyadic rational in `[0, 256)` whose scaled form `value·2^32`
is a natural number (the literals have at most 26 fractional bits and
rounding only removes low bits), so the whole float computation is
embedded exactly over `Nat`: a value `x` is represented by `x·2^32`, and
one float operation is "exact integer operation, then `fl32s`". -/

/-- Number of binary digits of `n` (`0` for `0`), by fuel recursion;
`64` fuel covers every value in the luminance computation. -/
def bitLenAux : Nat → Nat → Nat
  | 0, _ => 0
  | fuel + 1, n => if n = 0 then 0 else bitLenAux fuel (n / 2) + 1

/-- Binary length of `n < 2^64`. -/
def bitLen (n : Nat) : Nat := bitLenAux 64 n

/-- Round `a / d` to the nearest integer, ties to even (the IEEE-754
default rounding used for `float` arithmetic). -/
def rnEven (a d : Nat) : Nat :=
  if 2 * (a % d) < d then a / d
  else if d < 2 * (a % d) then a / d + 1
  else if a / d % 2 = 0 then a / d else a / d + 1

/-- One binary32 rounding step on a value scaled by `2^32`: keep the 24
most significant bits, rounding to nearest with ties to even.  In the
luminance computation every value is far from both overflow and the
subnormal range, so this is exactly the rounding a `float` multiply or
add performs on its exact result. -/
def fl32s (X : Nat) : Nat :=
  if bitLen X ≤ 24 then X
  else rnEven X (2 ^ (bitLen X - 24)) * 2 ^ (bitLen X - 24)

/-- The exact binary32 value of the float literal `0.2126f`, scaled by
`2^32` (`0.2126f = 891709/2^22`, so `891709·2^10`). -/
def lumRs : Nat := 913110016

/-- `0.7152f` scaled by `2^32` (`0.7152f = 11999065/2^24`). -/
def lumGs : Nat := 3071760640

/-- `0.0722f` scaled by `2^32` (`0.0722f = 1211315/2^24`). -/
def lumBs : Nat := 310096640

/-- The float expression `0.2126f*red + 0.7152f*green + 0.0722f*blue` of
`ColorRgb::GetLuminance`, evaluated with binary32 rounding after each
multiplication and addition (left-associated, as in the source), scaled
by `2^32`.  The `uint8_t` channels convert to `float` exactly; each
product and each sum is computed exactly and then rounded by `fl32s`. -/
def lumFloat (r g b : Nat) : Nat :=
  fl32s (fl32s (fl32s (lumRs * r) + fl32s (lumGs * g)) + fl32s (lumBs * b))

/-- `ColorRgb::GetLuminance`: the float sum is converted to `uint16_t`,
which truncates toward zero (`/ 2^32` on the scaled value; the value is
in range, and the `% 65536` materialises the 16-bit storage);
`std::clamp<uint8_t>` first narrows its argument to `uint8_t` (`% 256`)
and then clamps to `[0,255]`. -/
def ColorRgb.GetLuminance (c : ColorRgb) : Nat :=
  cppClamp (lumFloat c.red c.green c.blue / 4294967296 % 65536 % 256) 0 255

/-- `ColorTemp`: color temperature in Kelvin, default 2700. -/
structure ColorTemp where
  kelvin : Nat
deriving DecidableEq

/-- `ColorTemp::SetKelvin`: `std::clamp(kelvin, 1500, 15000)`. -/
def ColorTemp.SetKelvin (c : ColorTemp) (k : Nat) : ColorTemp :=
  { c with kelvin := cppClamp k 1500 15000 }

/-- `ColorTemp(uint16_t kelvin)`: the constructor runs `SetKelvin`. -/
def ColorTemp.mkTemp (k : Nat) : ColorTemp :=
  (⟨2700⟩ : ColorTemp).SetKelvin k

/-- `ColorTemp()` default constructor: `kelvin_ = 2700`. -/
def ColorTemp.default0 : ColorTemp := ⟨2700⟩

end CppContainers

namespace CppContainers

/-- C1: `*=` is set intersection: for sets over `[lo,hi]` and `v ∈ [lo,hi]`,
after `A *= B` membership of `v` holds iff it held in both `A` and `B`;
concretely, with elements `E1..E10` embedded as `0..9`,
`{E1,E2,E3} *= {E4,E2,E6}` yields exactly `{E2}`. -/
theorem c1_intersection :
    (∀ (lo hi : Nat) (A B : CSet lo hi) (v : Nat), lo ≤ v → v ≤ hi →
      (A.intersect B).Contains v = (A.Contains v && B.Contains v)) ∧
    ((((CSet.empty 0 9).Insert 0 |>.Insert 1 |>.Insert 2).intersect
        ((CSet.empty 0 9).Insert 3 |>.Insert 1 |>.Insert 5)).beq
      ((CSet.empty 0 9).Insert 1) = true) := by
  constructor
  · intro lo hi A B v hlo hhi
    have hrange : (v < lo || hi < v) = false := by
      simp [Nat.not_lt.mpr hlo, Nat.not_lt.mpr hhi]
    simp [CSet.Contains, CSet.intersect, hrange, Nat.testBit_land]
  · decide

/-- C1 witness: the pointwise-intersection law instantiated at a concrete
set pair over `[0,9]` and the element `1`. -/
theorem c1_intersection_witness :
    (((CSet.empty 0 9).Insert 0 |>.Insert 1).intersect
        ((CSet.empty 0 9).Insert 1 |>.Insert 5)).Contains 1 =
      ((((CSet.empty 0 9).Insert 0 |>.Insert 1)).Contains 1 &&
        (((CSet.empty 0 9).Insert 1 |>.Insert 5)).Contains 1) :=
  c1_intersection.1 0 9 _ _ 1 (by decide) (by decide)

/-- C5: for `v` outside `[lo,hi]`, `Insert` and `Erase` leave the set
unchanged, and `Contains` returns `false` (for every state, so no state
ever represents an out-of-range value). -/
theorem c5_out_of_range :
    ∀ (lo hi : Nat) (s : CSet lo hi) (v : Nat), v < lo ∨ hi < v →
      s.Insert v = s ∧ s.Erase v = s ∧ s.Contains v = false := by
  intro lo hi s v hv
  have hrange : (v < lo || hi < v) = true := by
    rcases hv with h | h <;> simp [h]
  refine ⟨?_, ?_, ?_⟩ <;> simp [CSet.Insert, CSet.Erase, CSet.Contains, hrange]

/-- C5 witness: out-of-range element `12` over the range `[2,5]` is ignored
by `Insert`, `Erase` and `Contains` on a concrete set. -/
theorem c5_out_of_range_witness :
    ((CSet.empty 2 5).Insert 3).Insert 12 = (CSet.empty 2 5).Insert 3 ∧
    ((CSet.empty 2 5).Insert 3).Erase 12 = (CSet.empty 2 5).Insert 3 ∧
    ((CSet.empty 2 5).Insert 3).Contains 12 = false :=
  c5_out_of_range 2 5 _ 12 (Or.inr (by decide))

/-- C3: `Push` on a full buffer and `Pop` on an empty buffer both return
`-1` and leave the whole state (head, tail, full flag, slots) unchanged;
on a non-full (resp. non-empty) buffer they return `0`. -/
theorem c3_failure_atomic :
    ∀ (T : Type) [Inhabited T] (N : Nat) (cb : CircularBuffer T N) (v : T),
      (cb.full = true → cb.Push v = (-1, cb)) ∧
      (cb.Empty = true → cb.Pop = (-1, none, cb)) ∧
      (cb.full = false → (cb.Push v).1 = 0) ∧
      (cb.Empty = false → (cb.Pop).1 = 0) := by
  intro T _ N cb v
  refine ⟨fun h => ?_, fun h => ?_, fun h => ?_, fun h => ?_⟩ <;>
    simp [CircularBuffer.Push, CircularBuffer.Pop, h]

/-- C3 witness: the four cases at concrete buffers of capacity 2: a full
one (`[7,8]`, head = tail = 0, full) and an empty one. -/
theorem c3_failure_atomic_witness :
    ((⟨[7, 8], 0, 0, true⟩ : CircularBuffer Nat 2).Push 5 =
      (-1, (⟨[7, 8], 0, 0, true⟩ : CircularBuffer Nat 2))) ∧
    ((CircularBuffer.mkEmpty Nat 2).Pop =
      (-1, none, CircularBuffer.mkEmpty Nat 2)) ∧
    (((CircularBuffer.mkEmpty Nat 2).Push 5).1 = 0) ∧
    (((⟨[7, 8], 0, 0, true⟩ : CircularBuffer Nat 2).Pop).1 = 0) :=
  ⟨(c3_failure_atomic Nat 2 _ 5).1 (by decide),
   (c3_failure_atomic Nat 2 _ 5).2.1 (by decide),
   (c3_failure_atomic Nat 2 _ 5).2.2.1 (by decide),
   (c3_failure_atomic Nat 2 _ 5).2.2.2 (by decide)⟩

/-- C4: `PushForce` on a full buffer writes the new element at `tail`,
advances `head`, and keeps the buffer full with `Size() = N`; concretely
for `N = 3`: pushing 1,2,3 fills the buffer, `Push 4` fails, `PushForce 4`
overwrites the oldest element, and the pop sequence is 2,3,4. -/
theorem c4_pushforce :
    (∀ (T : Type) [Inhabited T] (N : Nat) (cb : CircularBuffer T N) (v : T),
      cb.full = true → cb.head = cb.tail → cb.tail < N →
      (cb.PushForce v).full = true ∧ (cb.PushForce v).Size = N ∧
      (cb.PushForce v).head = (cb.head + 1) % N ∧
      (cb.PushForce v).buffer = cb.buffer.set cb.tail v) ∧
    ((((CircularBuffer.mkEmpty Nat 3).pushAll [1, 2, 3]).2.Full = true) ∧
     ((((CircularBuffer.mkEmpty Nat 3).pushAll [1, 2, 3]).2.Push 4).1 = -1) ∧
     (((((CircularBuffer.mkEmpty Nat 3).pushAll [1, 2, 3]).2.PushForce 4).popAll
        3).1 = [(0, some 2), (0, some 3), (0, some 4)])) := by
  constructor
  · intro T _ N cb v hfull hht htN
    have hfull' : (cb.PushForce v).full = true := by
      simp [CircularBuffer.PushForce, CircularBuffer.advancePointer, hfull, hht]
    refine ⟨hfull', ?_, ?_, ?_⟩
    · simp [CircularBuffer.Size, hfull']
    · by_cases h : cb.head + 1 = N
      · simp [CircularBuffer.PushForce, CircularBuffer.advancePointer, hfull,
          h, Nat.mod_self]
      · have hlt : cb.head + 1 < N := by omega
        simp [CircularBuffer.PushForce, CircularBuffer.advancePointer, hfull,
          h, Nat.mod_eq_of_lt hlt]
    · simp [CircularBuffer.PushForce, CircularBuffer.advancePointer]
  · decide

/-- C4 witness: the general `PushForce`-on-full statement instantiated at
the concrete full buffer `[1,2,3]` (head = tail = 0) of capacity 3. -/
theorem c4_pushforce_witness :
    ((⟨[1, 2, 3], 0, 0, true⟩ : CircularBuffer Nat 3).PushForce 4).full = true ∧
    ((⟨[1, 2, 3], 0, 0, true⟩ : CircularBuffer Nat 3).PushForce 4).Size = 3 ∧
    ((⟨[1, 2, 3], 0, 0, true⟩ : CircularBuffer Nat 3).PushForce 4).head = (0 + 1) % 3 ∧
    ((⟨[1, 2, 3], 0, 0, true⟩ : CircularBuffer Nat 3).PushForce 4).buffer =
      [1, 2, 3].set 0 4 :=
  c4_pushforce.1 Nat 3 _ 4 (by decide) (by decide) (by decide)

/-- C10 counterexample: for capacity `N = 1` the claim fails: on the empty
buffer, `DirectPop` wraps `head` back onto `tail`, so `Empty()` is still
`true` afterwards, not `false`. -/
theorem c10_counterexample :
    (CircularBuffer.mkEmpty Nat 1).Empty = true ∧
    ((CircularBuffer.mkEmpty Nat 1).DirectPop.2).Empty = true := by
  decide

/-- C10 amended: for every capacity `N ≥ 2`, `DirectPop` on an empty
buffer performs no emptiness check and advances `head` past `tail`, after
which `Empty()` is `false` and `Size()` returns `N - 1`. -/
theorem c10_directpop :
    ∀ (T : Type) [Inhabited T] (N : Nat) (cb : CircularBuffer T N),
      2 ≤ N → cb.Empty = true → cb.head < N →
      (cb.DirectPop.2).head = (cb.head + 1) % N ∧
      (cb.DirectPop.2).Empty = false ∧ (cb.DirectPop.2).Size = N - 1 := by
  intro T _ N cb hN hemp hhead
  have h2 : cb.full = false ∧ cb.tail = cb.head := by
    simpa [CircularBuffer.Empty] using hemp
  by_cases h : cb.head + 1 = N
  · refine ⟨?_, ?_, ?_⟩ <;>
      · simp [CircularBuffer.DirectPop, CircularBuffer.retreatPointer,
          CircularBuffer.Empty, CircularBuffer.Size, h2.1, h2.2, h,
          Nat.mod_self]
        try omega
  · have hlt : cb.head + 1 < N := by omega
    refine ⟨?_, ?_, ?_⟩ <;>
      · simp [CircularBuffer.DirectPop, CircularBuffer.retreatPointer,
          CircularBuffer.Empty, CircularBuffer.Size, h2.1, h2.2, h,
          Nat.mod_eq_of_lt hlt]
        try omega

/-- Two buffer states with equal fields are equal. -/
theorem CircularBuffer.eq_of_fields {T : Type} {N : Nat}
    {a b : CircularBuffer T N} (h1 : a.buffer = b.buffer)
    (h2 : a.tail = b.tail) (h3 : a.head = b.head) (h4 : a.full = b.full) :
    a = b := by
  cases a
  cases b
  simp_all

/-- Push phase of the FIFO argument: pushing `vs` onto the state reached
after pushing `pre` (with room for all of it) succeeds throughout and
appends `vs` to the stored prefix. -/
theorem pushAll_filled {T : Type} [Inhabited T] {N : Nat} (vs : List T) :
    ∀ pre : List T, pre.length + vs.length ≤ N →
      (CircularBuffer.filled T N pre).pushAll vs =
        (List.replicate vs.length 0, CircularBuffer.filled T N (pre ++ vs)) := by
  induction vs with
  | nil =>
    intro pre h
    simp [CircularBuffer.pushAll]
  | cons v vs ih =>
    intro pre h
    have hlen : pre.length + (vs.length + 1) ≤ N := by
      simpa [Nat.add_comm, Nat.add_left_comm] using h
    have hp : pre.length < N := by omega
    have hpmod : pre.length % N = pre.length := Nat.mod_eq_of_lt hp
    have hfull : (CircularBuffer.filled T N pre).full = false := by
      simp only [CircularBuffer.filled, decide_eq_false_iff_not, hpmod]
      omega
    have htail : (if pre.length + 1 = N then 0 else pre.length + 1) =
        (pre.length + 1) % N := by
      split
      · rename_i h1
        rw [h1, Nat.mod_self]
      · rename_i h1
        rw [Nat.mod_eq_of_lt (by omega)]
    have hstep : ((CircularBuffer.filled T N pre).Push v) =
        (0, CircularBuffer.filled T N (pre ++ [v])) := by
      simp only [CircularBuffer.Push, hfull, Bool.false_eq_true, if_false]
      refine congrArg (Prod.mk 0) (CircularBuffer.eq_of_fields ?_ ?_ ?_ ?_)
      · show ((CircularBuffer.filled T N pre).buffer.set
            (CircularBuffer.filled T N pre).tail v) = _
        simp only [CircularBuffer.filled, hpmod, List.length_append,
          List.length_singleton]
        rw [List.set_append_right _ _ (le_refl pre.length), Nat.sub_self]
        have hrep : N - pre.length = (N - (pre.length + 1)) + 1 := by omega
        rw [hrep, List.replicate_succ]
        simp
      · show (if (CircularBuffer.filled T N pre).tail + 1 = N then 0
            else (CircularBuffer.filled T N pre).tail + 1) = _
        simp only [CircularBuffer.filled, hpmod, List.length_append,
          List.length_singleton]
        exact htail
      · dsimp only [CircularBuffer.advancePointer]
        simp [CircularBuffer.filled]
      · dsimp only [CircularBuffer.advancePointer]
        simp only [CircularBuffer.filled, hpmod, Bool.false_eq_true, if_false,
          List.length_append, List.length_singleton, htail]
        show decide ((pre.length + 1) % N = 0) = _
        have hiff : ((pre.length + 1) % N = 0) ↔
            (0 < pre.length + 1 ∧ (pre.length + 1) % N = 0) := by omega
        exact decide_eq_decide.mpr hiff
    simp only [CircularBuffer.pushAll, hstep]
    rw [ih (pre ++ [v]) (by simp only [List.length_append,
      List.length_singleton]; omega)]
    simp [List.replicate_succ, List.append_assoc]

/-- Pop phase of the FIFO argument: with `vs` pushed and `j` of them
already popped, the remaining `r = vs.length - j` pops all succeed and
return the rest of `vs` in order. -/
theorem popAll_popped {T : Type} [Inhabited T] {N : Nat} (vs : List T)
    (hvs : vs.length ≤ N) :
    ∀ (r j : Nat), j + r = vs.length →
      ((CircularBuffer.popped T N vs j).popAll r).1 =
        (vs.drop j).map fun v => ((0 : Int), some v) := by
  intro r
  induction r with
  | zero =>
    intro j hj
    have hd : vs.drop j = [] := List.drop_of_length_le (by omega)
    simp [CircularBuffer.popAll, hd]
  | succ r ih =>
    intro j hj
    have hjlt : j < vs.length := by omega
    have hjN : j < N := by omega
    have hjmod : j % N = j := Nat.mod_eq_of_lt hjN
    have hne : (CircularBuffer.popped T N vs j).Empty = false := by
      simp only [CircularBuffer.popped, CircularBuffer.Empty]
      by_cases hP : vs.length = N ∧ 0 < vs.length ∧ j = 0
      · simp [decide_eq_true hP]
      · simp only [decide_eq_false hP, Bool.not_false, Bool.true_and,
          beq_eq_false_iff_ne, ne_eq]
        rw [hjmod]
        rcases Nat.lt_or_ge vs.length N with hlen | hlen
        · rw [Nat.mod_eq_of_lt hlen]
          omega
        · have hlenN : vs.length = N := by omega
          rw [hlenN, Nat.mod_self]
          omega
    have hhead : (if j + 1 = N then 0 else j + 1) = (j + 1) % N := by
      split
      · rename_i h1
        rw [h1, Nat.mod_self]
      · rename_i h1
        rw [Nat.mod_eq_of_lt (by omega)]
    have hstep : (CircularBuffer.popped T N vs j).Pop =
        (0, some (vs.getD j default), CircularBuffer.popped T N vs (j + 1)) := by
      simp only [CircularBuffer.Pop, hne, Bool.false_eq_true, if_false]
      refine congrArg (Prod.mk 0) (congrArg₂ Prod.mk ?_
        (CircularBuffer.eq_of_fields ?_ ?_ ?_ ?_))
      · show some ((CircularBuffer.popped T N vs j).buffer.getD
            (CircularBuffer.popped T N vs j).head default) = _
        simp only [CircularBuffer.popped, hjmod]
        rw [List.getD_append _ _ _ _ hjlt]
      · rfl
      · rfl
      · show (if (CircularBuffer.popped T N vs j).head + 1 = N then 0
            else (CircularBuffer.popped T N vs j).head + 1) = _
        simp only [CircularBuffer.popped, hjmod]
        exact hhead
      · show false = _
        simp [CircularBuffer.popped]
    simp only [CircularBuffer.popAll, hstep]
    rw [List.drop_eq_getElem_cons hjlt, List.map_cons]
    rw [ih (j + 1) (by omega)]
    simp [List.getD, List.getElem?_eq_getElem hjlt]

/-- C2: the buffer is FIFO: for every capacity `N` and every sequence
`vs` with `vs.length ≤ N`, pushing `vs` into a fresh buffer succeeds at
every step, and then popping `vs.length` times succeeds at every step and
returns exactly the elements of `vs` in push order. -/
theorem c2_fifo :
    ∀ (T : Type) [Inhabited T] (N : Nat) (vs : List T), vs.length ≤ N →
      ((CircularBuffer.mkEmpty T N).pushAll vs).1 =
        List.replicate vs.length 0 ∧
      (((CircularBuffer.mkEmpty T N).pushAll vs).2.popAll vs.length).1 =
        vs.map fun v => ((0 : Int), some v) := by
  intro T _ N vs h
  have hempty : CircularBuffer.mkEmpty T N = CircularBuffer.filled T N [] := by
    simp [CircularBuffer.mkEmpty, CircularBuffer.filled]
  have hpush := pushAll_filled vs [] (by simpa using h)
  rw [hempty, hpush]
  refine ⟨rfl, ?_⟩
  have hfp : CircularBuffer.filled T N vs = CircularBuffer.popped T N vs 0 := by
    refine CircularBuffer.eq_of_fields rfl rfl ?_ ?_
    · show (0 : Nat) = 0 % N
      rw [Nat.zero_mod]
    · show decide (0 < vs.length ∧ vs.length % N = 0) =
        decide (vs.length = N ∧ 0 < vs.length ∧ 0 = 0)
      refine decide_eq_decide.mpr ?_
      rcases Nat.lt_or_ge vs.length N with hlen | hlen
      · rw [Nat.mod_eq_of_lt hlen]
        omega
      · have hlenN : vs.length = N := by omega
        rw [hlenN, Nat.mod_self]
        omega
  have := popAll_popped vs h vs.length 0 (by omega)
  simpa [hfp] using this

/-- Wraparound arithmetic: reducing a sum of two values below `N`. -/
theorem mod_of_lt_two_mul {a N : Nat} (h : a < 2 * N) :
    a % N = if a < N then a else a - N := by
  split
  · rename_i h1
    exact Nat.mod_eq_of_lt h1
  · rename_i h1
    rw [Nat.mod_eq_sub_mod (by omega), Nat.mod_eq_of_lt (by omega)]

/-- One step of `iterGo` with positive fuel. -/
theorem iterGo_succ {T : Type} [Inhabited T] {N : Nat}
    (cb : CircularBuffer T N) (it : CBIterator) (fuel : Nat) :
    cb.iterGo it (fuel + 1) =
      if it.beq cb.endIter then []
      else cb.buffer.getD it.position default ::
        cb.iterGo (it.next N) fuel := rfl

/-- Iterating a full buffer from an already-advanced iterator (flag
cleared, `r` slots still to visit before reaching `tail` again) yields
exactly those `r` slots in position order. -/
theorem iterGo_full {T : Type} [Inhabited T] {N : Nat}
    (cb : CircularBuffer T N) (hfull : cb.full = true)
    (hht : cb.head = cb.tail) (hN : cb.head < N) :
    ∀ (r : Nat), r < N → ∀ fuel, r + 1 ≤ fuel →
      cb.iterGo ⟨(cb.head + (N - r)) % N, false⟩ fuel =
        (List.range r).map
          (fun j => cb.buffer.getD ((cb.head + (N - r) + j) % N) default) := by
  have hgetD : ∀ a b : Nat, a = b →
      cb.buffer.getD (a % N) default = cb.buffer.getD (b % N) default :=
    fun a b h => by rw [h]
  intro r
  induction r with
  | zero =>
    intro hr fuel hfuel
    cases fuel with
    | zero => omega
    | succ f =>
      have hc : (⟨(cb.head + (N - 0)) % N, false⟩ : CBIterator).beq
          cb.endIter = true := by
        simp [CBIterator.beq, CircularBuffer.endIter, CircularBuffer.Empty,
          hfull, Nat.sub_zero, Nat.add_mod_right, Nat.mod_eq_of_lt hN, hht,
          Nat.mod_eq_of_lt (hht ▸ hN)]
      rw [iterGo_succ, if_pos hc]
      simp
  | succ r ih =>
    intro hr fuel hfuel
    cases fuel with
    | zero => omega
    | succ f =>
      have hplt : (cb.head + (N - (r + 1))) % N < N :=
        Nat.mod_lt _ (by omega)
      have hne : (cb.head + (N - (r + 1))) % N ≠ cb.tail := by
        have h2 : cb.head + (N - (r + 1)) < 2 * N := by omega
        rw [mod_of_lt_two_mul h2, ← hht]
        split <;> omega
      have hnext : ((cb.head + (N - (r + 1))) % N + 1) % N =
          (cb.head + (N - r)) % N := by
        rw [Nat.mod_add_mod]
        have h3 : cb.head + (N - (r + 1)) + 1 = cb.head + (N - r) := by omega
        rw [h3]
      have hstep : (if (cb.head + (N - (r + 1))) % N + 1 = N then 0
          else (cb.head + (N - (r + 1))) % N + 1) =
          (cb.head + (N - r)) % N := by
        by_cases h1 : (cb.head + (N - (r + 1))) % N + 1 = N
        · rw [if_pos h1, ← hnext, h1, Nat.mod_self]
        · rw [if_neg h1, ← hnext]
          have h2 : (cb.head + (N - (r + 1))) % N + 1 < N := by omega
          rw [Nat.mod_eq_of_lt h2]
      have hc : (⟨(cb.head + (N - (r + 1))) % N, false⟩ : CBIterator).beq
          cb.endIter = false := by
        simp [CBIterator.beq, CircularBuffer.endIter, CircularBuffer.Empty,
          hfull, hne]
      rw [iterGo_succ, hc, if_neg Bool.false_ne_true]
      simp only [CBIterator.next, hstep]
      rw [ih (by omega) f (by omega)]
      rw [List.range_succ_eq_map, List.map_cons, List.map_map]
      refine congrArg₂ List.cons ?_ ?_
      · show cb.buffer.getD ((cb.head + (N - (r + 1))) % N) default =
            cb.buffer.getD ((cb.head + (N - (r + 1)) + 0) % N) default
        exact hgetD (cb.head + (N - (r + 1)))
          (cb.head + (N - (r + 1)) + 0) (by omega)
      · refine List.map_congr_left ?_
        intro j _
        show cb.buffer.getD ((cb.head + (N - r) + j) % N) default =
            cb.buffer.getD ((cb.head + (N - (r + 1)) + Nat.succ j) % N) default
        exact hgetD (cb.head + (N - r) + j)
          (cb.head + (N - (r + 1)) + Nat.succ j) (by omega)

/-- C6: iterator equality compares position and the begin/end flag; hence
for every empty buffer `begin() == end()` and iteration yields nothing,
while for every full buffer (`head == tail`, full set) `begin() != end()`
and iteration visits exactly `N` elements, starting at `head` and
proceeding in insertion order. -/
theorem c6_iterator :
    ∀ (T : Type) [Inhabited T] (N : Nat) (cb : CircularBuffer T N),
      (cb.Empty = true →
        cb.beginIter.beq cb.endIter = true ∧ cb.iterList = []) ∧
      (cb.full = true → cb.head = cb.tail → cb.head < N →
        cb.beginIter.beq cb.endIter = false ∧
        cb.iterList = (List.range N).map
          (fun j => cb.buffer.getD ((cb.head + j) % N) default) ∧
        cb.iterList.length = N) := by
  intro T _ N cb
  constructor
  · intro hemp
    have h2 : cb.full = false ∧ cb.tail = cb.head := by
      simpa [CircularBuffer.Empty] using hemp
    have hbeq : cb.beginIter.beq cb.endIter = true := by
      simp [CBIterator.beq, CircularBuffer.beginIter, CircularBuffer.endIter,
        hemp, h2.2]
    refine ⟨hbeq, ?_⟩
    show cb.iterGo cb.beginIter (N + 1) = []
    rw [iterGo_succ, if_pos hbeq]
  · intro hfull hht hN
    obtain ⟨M, rfl⟩ : ∃ M, N = M + 1 := ⟨N - 1, by omega⟩
    have hbeq : cb.beginIter.beq cb.endIter = false := by
      simp [CBIterator.beq, CircularBuffer.beginIter, CircularBuffer.endIter,
        CircularBuffer.Empty, hfull]
    have hstep : (if cb.head + 1 = M + 1 then 0 else cb.head + 1) =
        (cb.head + (M + 1 - M)) % (M + 1) := by
      have h1 : M + 1 - M = 1 := by omega
      rw [h1]
      split
      · rename_i h2
        rw [h2, Nat.mod_self]
      · rename_i h2
        rw [Nat.mod_eq_of_lt (by omega)]
    have hgetD : ∀ a b : Nat, a = b →
        cb.buffer.getD (a % (M + 1)) default =
          cb.buffer.getD (b % (M + 1)) default :=
      fun a b h => by rw [h]
    have hgo := iterGo_full cb hfull hht hN M (by omega) (M + 1) (by omega)
    have hlist : cb.iterList = (List.range (M + 1)).map
        (fun j => cb.buffer.getD ((cb.head + j) % (M + 1)) default) := by
      show cb.iterGo cb.beginIter (M + 1 + 1) = _
      rw [iterGo_succ, hbeq, if_neg Bool.false_ne_true]
      simp only [CircularBuffer.beginIter, CBIterator.next, hstep]
      rw [hgo]
      rw [List.range_succ_eq_map, List.map_cons, List.map_map]
      congr 1
      · have h9 : cb.buffer.getD ((cb.head + 0) % (M + 1)) default =
            cb.buffer.getD cb.head default := by
          simp only [Nat.add_zero, Nat.mod_eq_of_lt hN]
        exact h9.symm
      · refine List.map_congr_left ?_
        intro j _
        show cb.buffer.getD ((cb.head + (M + 1 - M) + j) % (M + 1)) default =
            cb.buffer.getD ((cb.head + Nat.succ j) % (M + 1)) default
        exact hgetD (cb.head + (M + 1 - M) + j)
          (cb.head + Nat.succ j) (by omega)
    exact ⟨hbeq, hlist, by rw [hlist]; simp⟩

/-- C6 witness: an empty buffer of capacity 2 has `begin() == end()` and
empty iteration; the full buffer `[5,6]` (head = tail = 0) has
`begin() != end()` and iteration visits both elements from `head`. -/
theorem c6_iterator_witness :
    (CircularBuffer.mkEmpty Nat 2).beginIter.beq
      (CircularBuffer.mkEmpty Nat 2).endIter = true ∧
    (CircularBuffer.mkEmpty Nat 2).iterList = [] ∧
    (⟨[5, 6], 0, 0, true⟩ : CircularBuffer Nat 2).beginIter.beq
      (⟨[5, 6], 0, 0, true⟩ : CircularBuffer Nat 2).endIter = false ∧
    (⟨[5, 6], 0, 0, true⟩ : CircularBuffer Nat 2).iterList =
      (List.range 2).map
        (fun j => ([5, 6] : List Nat).getD ((0 + j) % 2) default) :=
  ⟨((c6_iterator Nat 2 (CircularBuffer.mkEmpty Nat 2)).1 (by decide)).1,
   ((c6_iterator Nat 2 (CircularBuffer.mkEmpty Nat 2)).1 (by decide)).2,
   ((c6_iterator Nat 2 ⟨[5, 6], 0, 0, true⟩).2 (by decide) (by decide)
      (by decide)).1,
   ((c6_iterator Nat 2 ⟨[5, 6], 0, 0, true⟩).2 (by decide) (by decide)
      (by decide)).2.1⟩

/-- C2 witness: pushing `[10, 20, 30]` into a fresh capacity-3 buffer
succeeds three times and popping three times returns them in order. -/
theorem c2_fifo_witness :
    ((CircularBuffer.mkEmpty Nat 3).pushAll [10, 20, 30]).1 =
      List.replicate 3 0 ∧
    (((CircularBuffer.mkEmpty Nat 3).pushAll [10, 20, 30]).2.popAll 3).1 =
      [10, 20, 30].map fun v => ((0 : Int), some v) :=
  c2_fifo Nat 3 [10, 20, 30] (by decide)

/-- C10 witness: the amended statement at the concrete empty buffer of
capacity 2. -/
theorem c10_directpop_witness :
    ((CircularBuffer.mkEmpty Nat 2).DirectPop.2).head = (0 + 1) % 2 ∧
    ((CircularBuffer.mkEmpty Nat 2).DirectPop.2).Empty = false ∧
    ((CircularBuffer.mkEmpty Nat 2).DirectPop.2).Size = 2 - 1 :=
  c10_directpop Nat 2 _ (by decide) (by decide) (by decide)

end CppContainers

namespace CppContainers

/-- C7: HSV→RGB at the boundary sectors: `(0,100,100) ↦ (255,0,0)`,
`(120,100,100) ↦ (0,255,0)`, `(240,100,100) ↦ (0,0,255)`,
`(0,0,100) ↦ (255,255,255)`; `(h,0,0) ↦ (0,0,0)` for every hue `h`; and
`hue = 360` maps to the same RGB as `hue = 0` for every saturation and
value. -/
theorem c7_hsv_to_rgb :
    ColorHsv.ToRgb (ColorHsv.mkHsv 0 100 100) = ⟨255, 0, 0⟩ ∧
    ColorHsv.ToRgb (ColorHsv.mkHsv 120 100 100) = ⟨0, 255, 0⟩ ∧
    ColorHsv.ToRgb (ColorHsv.mkHsv 240 100 100) = ⟨0, 0, 255⟩ ∧
    ColorHsv.ToRgb (ColorHsv.mkHsv 0 0 100) = ⟨255, 255, 255⟩ ∧
    (∀ h : Nat, ColorHsv.ToRgb (ColorHsv.mkHsv h 0 0) = ⟨0, 0, 0⟩) ∧
    (∀ s v : Nat, ColorHsv.ToRgb (ColorHsv.mkHsv 360 s v) =
      ColorHsv.ToRgb (ColorHsv.mkHsv 0 s v)) := by
  refine ⟨by decide, by decide, by decide, by decide, ?_, ?_⟩
  · intro h
    have h1 : ColorHsv.mkHsv h 0 0 = ⟨cppClamp h 0 360, 0, 0⟩ := rfl
    rw [h1]
    simp only [ColorHsv.ToRgb]
    norm_num
    split <;> simp [ColorRgb.mk8, ColorRgb.default0]
  · intro s v
    have h360 : ColorHsv.mkHsv 360 s v =
        ⟨360, cppClamp s 0 100, cppClamp v 0 100⟩ := rfl
    have h0 : ColorHsv.mkHsv 0 s v =
        ⟨0, cppClamp s 0 100, cppClamp v 0 100⟩ := rfl
    rw [h360, h0]
    simp only [ColorHsv.ToRgb]
    norm_num
    have e1 : (65535 - |(Int.tdiv 23592960 60).tmod 131072 - 65535| : Int)
        = 0 := by decide
    rw [e1]
    simp
    have e2 : (Int.emod 0 256).toNat = 0 := by decide
    rw [e2]
    simp

/-- C8: every `ColorHsv` setter clamps into `hue ≤ 360`,
`saturation ≤ 100`, `value ≤ 100` and `ColorTemp::SetKelvin` clamps into
`[1500, 15000]`; `ColorHsv(400,150,150)` yields `(360,100,100)`,
`ColorTemp(999)` yields 1500, `ColorTemp(20000)` yields 15000, and a
default-constructed `ColorTemp` holds 2700 K. -/
theorem c8_clamping :
    (∀ (c : ColorHsv) (h s v : Nat),
      (c.SetHue h).hue ≤ 360 ∧ (c.SetSaturation s).saturation ≤ 100 ∧
        (c.SetValue v).value ≤ 100) ∧
    (∀ (c : ColorTemp) (k : Nat),
      1500 ≤ (c.SetKelvin k).kelvin ∧ (c.SetKelvin k).kelvin ≤ 15000) ∧
    ColorHsv.mkHsv 400 150 150 = ⟨360, 100, 100⟩ ∧
    ColorTemp.mkTemp 999 = ⟨1500⟩ ∧
    ColorTemp.mkTemp 20000 = ⟨15000⟩ ∧
    ColorTemp.default0.kelvin = 2700 := by
  refine ⟨?_, ?_, by decide, by decide, by decide, by decide⟩
  · intro c h s v
    refine ⟨?_, ?_, ?_⟩ <;>
      simp [ColorHsv.SetHue, ColorHsv.SetSaturation, ColorHsv.SetValue,
        cppClamp]
  · intro c k
    constructor <;> simp [ColorTemp.SetKelvin, cppClamp]

/-- The fuel recursion of `bitLenAux` brackets every nonzero `n < 2^fuel`
between consecutive powers of two. -/
theorem bitLenAux_spec :
    ∀ (fuel n : Nat), n < 2 ^ fuel → n ≠ 0 →
      2 ^ (bitLenAux fuel n - 1) ≤ n ∧ n < 2 ^ bitLenAux fuel n := by
  intro fuel
  induction fuel with
  | zero =>
    intro n h hn
    norm_num at h
    omega
  | succ fuel ih =>
    intro n h hn
    simp only [bitLenAux, if_neg hn]
    by_cases h2 : n / 2 = 0
    · have hn1 : n = 1 := by omega
      subst hn1
      have haux : bitLenAux fuel 0 = 0 := by
        cases fuel <;> simp [bitLenAux]
      rw [show (1 : Nat) / 2 = 0 from rfl, haux]
      norm_num
    · have hstep : 2 ^ (fuel + 1) = 2 * 2 ^ fuel := pow_succ' 2 fuel
      have hlt : n / 2 < 2 ^ fuel := by omega
      obtain ⟨h3, h4⟩ := ih (n / 2) hlt h2
      set k := bitLenAux fuel (n / 2) with hk
      have hk1 : 1 ≤ k := by
        rcases Nat.eq_zero_or_pos k with h5 | h5
        · rw [h5] at h4
          norm_num at h4
          omega
        · exact h5
      have h5 : 2 ^ k = 2 * 2 ^ (k - 1) := by
        have h6 := pow_succ' 2 (k - 1)
        have h7 : k - 1 + 1 = k := by omega
        rw [h7] at h6
        exact h6
      have h8 : 2 ^ (k + 1) = 2 * 2 ^ k := pow_succ' 2 k
      constructor
      · simp only [Nat.add_sub_cancel]
        omega
      · omega

/-- Binary-length bracketing for the (64-bit-bounded) values occurring in
the luminance computation. -/
theorem bitLen_spec (n : Nat) (h : n < 18446744073709551616) (hn : n ≠ 0) :
    2 ^ (bitLen n - 1) ≤ n ∧ n < 2 ^ bitLen n := by
  have h64 : (2 : Nat) ^ 64 = 18446744073709551616 := by norm_num
  exact bitLenAux_spec 64 n (by omega) hn

/-- A binary32 rounding step increases a (scaled) value by at most one
unit in the last place: `fl32s X ≤ X + X / 2^23`. -/
theorem fl32s_le (X : Nat) (h : X < 18446744073709551616) :
    fl32s X ≤ X + X / 8388608 := by
  unfold fl32s
  split
  · omega
  · rename_i hgt
    push_neg at hgt
    have hX : X ≠ 0 := by
      intro h0
      subst h0
      have hz : bitLen 0 = 0 := by simp [bitLen, bitLenAux]
      omega
    obtain ⟨hlo, hhi⟩ := bitLen_spec X h hX
    have h1 : rnEven X (2 ^ (bitLen X - 24)) ≤ X / 2 ^ (bitLen X - 24) + 1 := by
      unfold rnEven
      split
      · omega
      · split
        · omega
        · split <;> omega
    have h2 : rnEven X (2 ^ (bitLen X - 24)) * 2 ^ (bitLen X - 24) ≤
        X + 2 ^ (bitLen X - 24) := by
      have h3 := Nat.div_mul_le_self X (2 ^ (bitLen X - 24))
      calc rnEven X (2 ^ (bitLen X - 24)) * 2 ^ (bitLen X - 24) ≤
          (X / 2 ^ (bitLen X - 24) + 1) * 2 ^ (bitLen X - 24) :=
            Nat.mul_le_mul_right _ h1
        _ = X / 2 ^ (bitLen X - 24) * 2 ^ (bitLen X - 24) +
            2 ^ (bitLen X - 24) := by ring
        _ ≤ X + 2 ^ (bitLen X - 24) := by omega
    have h4 : 2 ^ (bitLen X - 24) ≤ X / 8388608 := by
      have h5 : bitLen X - 1 = (bitLen X - 24) + 23 := by omega
      rw [h5, pow_add] at hlo
      have h6 : (2 : Nat) ^ 23 = 8388608 := by norm_num
      rw [h6] at hlo
      rw [Nat.le_div_iff_mul_le (by norm_num)]
      omega
    omega

/-- C9 counterexample: the claim says `Luminance()` rounds, but the code
truncates the float value to an integer: at `ColorRgb(0,1,0)` the code
returns `0` (the float sum is `0.7152f`, truncated to `0`), while
`round(0.2126·0 + 0.7152·1 + 0.0722·0) = 1`. -/
theorem c9_counterexample :
    ColorRgb.GetLuminance (ColorRgb.mk8 0 1 0) = 0 ∧
    round ((2126 : ℚ) / 10000 * 0 + 7152 / 10000 * 1 + 722 / 10000 * 0)
      = 1 := by
  constructor
  · decide
  · norm_num [round_eq]

/-- C9 amended: `Luminance()` truncates rather than rounds: it returns
the binary32 evaluation of `0.2126f·R + 0.7152f·G + 0.0722f·B` (rounding
to `float` after every multiply and add) truncated toward zero; the
result never exceeds 255, so the final clamp to `[0,255]` is the
identity; in particular `(0,0,0) ↦ 0`, `(255,255,255) ↦ 255`, and
`(13,13,13) ↦ 12` (the float sum falls just below 13, where the exact
weighted sum would truncate to 13). -/
theorem c9_luminance :
    (∀ c : ColorRgb, c.red ≤ 255 → c.green ≤ 255 → c.blue ≤ 255 →
      c.GetLuminance = lumFloat c.red c.green c.blue / 4294967296 ∧
      c.GetLuminance ≤ 255) ∧
    ColorRgb.GetLuminance (ColorRgb.mk8 0 0 0) = 0 ∧
    ColorRgb.GetLuminance (ColorRgb.mk8 255 255 255) = 255 ∧
    ColorRgb.GetLuminance (ColorRgb.mk8 13 13 13) = 12 := by
  refine ⟨?_, by decide, by decide, by decide⟩
  intro c hr hg hb
  have hr1 : lumRs * c.red ≤ 232843054080 := by
    simp only [lumRs]
    omega
  have hg1 : lumGs * c.green ≤ 783298963200 := by
    simp only [lumGs]
    omega
  have hb1 : lumBs * c.blue ≤ 79074643200 := by
    simp only [lumBs]
    omega
  have hA := fl32s_le (lumRs * c.red) (by omega)
  have hB := fl32s_le (lumGs * c.green) (by omega)
  have hD := fl32s_le (lumBs * c.blue) (by omega)
  have hS1 := fl32s_le (fl32s (lumRs * c.red) + fl32s (lumGs * c.green))
    (by omega)
  have hS2 := fl32s_le (fl32s (fl32s (lumRs * c.red) +
    fl32s (lumGs * c.green)) + fl32s (lumBs * c.blue)) (by omega)
  have hbound : lumFloat c.red c.green c.blue < 1099511627776 := by
    unfold lumFloat
    omega
  constructor
  · simp only [ColorRgb.GetLuminance, cppClamp]
    omega
  · simp only [ColorRgb.GetLuminance, cppClamp]
    omega

/-- C9 amended witness: the truncation formula and the bound instantiated
at the concrete color `(13, 13, 13)`. -/
theorem c9_luminance_witness :
    (⟨13, 13, 13⟩ : ColorRgb).GetLuminance = lumFloat 13 13 13 / 4294967296 ∧
    (⟨13, 13, 13⟩ : ColorRgb).GetLuminance ≤ 255 :=
  c9_luminance.1 ⟨13, 13, 13⟩ (by decide) (by decide) (by decide)

end CppContainers
